import Mathlib

/-!
Verification of the cmon data normalization and aggregation model.

The definitions below are a shallow embedding of the Python source in
src/cmon (models.py, display.py, cli.py):

- Python str values are embedded as String, with character-level parsing
  done on List Char (String.toList).
- Python int is embedded as Int (unbounded, signed); Python float
  quantities that the claims mention (utilization percentages) are
  embedded as Rat, since every such value is a ratio of integers.
- Python None / Optional fields are embedded as Option.
- Python exceptions on the one code path the claims mention (an
  AttributeError in the issues filter of cli.py) are embedded as Except.
- Python truthiness tests on Optional strings and ints (for example
  "if not self.time_limit") are embedded explicitly: None or zero or the
  empty string is falsy.
- Python int(x) applied to a float quotient truncates toward zero, which
  is Int.tdiv on the embedded integer seconds; the floor divisions
  a // b and a % b of Python are Int.fdiv and Int.fmod.
-/

/-- Embedding of the NodeInfo pydantic model of models.py. Field order and
names follow the source; cpu_load is a Rat because the source divides the
raw integer encoding by 100. -/
structure NodeInfo where
  name : String
  state : List String
  partition_name : Option String
  cpus_allocated : Int
  cpus_idle : Int
  cpus_total : Int
  cpu_load : Rat
  memory_total : Int
  memory_free : Int
  memory_allocated : Int
  sockets : Int
  cores_per_socket : Int
  threads_per_core : Int
  gres_total : String
  gres_used : String
  features : String
  reason : String
  weight : Int
deriving DecidableEq

/-- Helper for building concrete nodes in examples: every field that a
given example does not care about is zero or a neutral default, matching
the defaults of the source model. -/
def mkNode (nm : String) (st : List String) (pn : Option String) : NodeInfo :=
  ⟨nm, st, pn, 0, 0, 0, 0, 0, 0, 0, 1, 1, 1, "", "", "", "", 1⟩

/-- NodeInfo.is_idle of models.py: the Python test is list membership of
the literal tag IDLE in self.state. -/
def is_idle (state : List String) : Bool := state.contains "IDLE"

/-- NodeInfo.is_down of models.py lines 92-101: DOWN present is down;
otherwise DRAIN or DRNG present makes the node down exactly when IDLE is
absent; otherwise not down. -/
def is_down (state : List String) : Bool :=
  if state.contains "DOWN" then
    true
  else if state.any (fun s => (["DRAIN", "DRNG"] : List String).contains s) then
    !(state.contains "IDLE")
  else
    false

/-- NodeInfo.is_mixed of models.py. -/
def is_mixed (state : List String) : Bool := state.contains "MIXED"

/-- NodeInfo.cpu_utilization of models.py lines 108-113: zero when
cpus_total is zero, else allocated over total times 100. -/
def cpu_utilization (cpus_allocated cpus_total : Int) : Rat :=
  if cpus_total = 0 then 0
  else ((cpus_allocated : Rat) / (cpus_total : Rat)) * 100

/-- NodeInfo.memory_utilization of models.py lines 115-121: zero when
memory_total is zero, else (total minus free) over total times 100. -/
def memory_utilization (memory_total memory_free : Int) : Rat :=
  if memory_total = 0 then 0
  else (((memory_total - memory_free : Int) : Rat) / (memory_total : Rat)) * 100

/-- C1: for every node, the derived down classification holds exactly when
DOWN is in the state list, or DRAIN or DRNG is in the state list and IDLE
is not; a node with state list [DRNG] is classified down and a node with
state list [DRNG, IDLE] is not. -/
theorem C1_is_down_classification :
    (∀ st : List String,
      (is_down st = true ↔
        ("DOWN" ∈ st ∨ (("DRAIN" ∈ st ∨ "DRNG" ∈ st) ∧ "IDLE" ∉ st))))
    ∧ is_down ["DRNG"] = true
    ∧ is_down ["DRNG", "IDLE"] = false := by
  refine ⟨fun st => ?_, by decide, by decide⟩
  unfold is_down
  by_cases hdown : st.contains "DOWN"
  · simp only [hdown, if_true, true_iff]
    exact Or.inl (by simpa using hdown)
  · simp only [hdown, Bool.false_eq_true, if_false]
    have hdownmem : "DOWN" ∉ st := by simpa using hdown
    by_cases hdrain : st.any (fun s => (["DRAIN", "DRNG"] : List String).contains s)
    · simp only [hdrain, if_true]
      have hmem : "DRAIN" ∈ st ∨ "DRNG" ∈ st := by
        rcases List.any_eq_true.mp hdrain with ⟨s, hs, hcontains⟩
        have hs2 : s = "DRAIN" ∨ s = "DRNG" := by simpa using hcontains
        rcases hs2 with rfl | rfl
        · exact Or.inl hs
        · exact Or.inr hs
      constructor
      · intro hidle
        refine Or.inr ⟨hmem, ?_⟩
        simpa using hidle
      · intro h
        rcases h with hdown2 | ⟨_, hidle⟩
        · exact absurd hdown2 hdownmem
        · simpa using hidle
    · simp only [hdrain, Bool.false_eq_true, if_false, false_iff]
      intro h
      rcases h with hdown2 | ⟨hmem, _⟩
      · exact absurd hdown2 hdownmem
      · apply hdrain
        rcases hmem with hm | hm
        · exact List.any_eq_true.mpr ⟨"DRAIN", hm, by decide⟩
        · exact List.any_eq_true.mpr ⟨"DRNG", hm, by decide⟩

/-- C9: CPU utilization equals allocated over total times 100 when the
total is positive and is exactly zero when the total is zero; memory
utilization equals (total minus free) over total times 100 when the total
is positive and is exactly zero when the total is zero. Both embeddings
are total functions, so no division-by-zero error can be raised. -/
theorem C9_utilization_total :
    ∀ a t tm fm : Int,
      (t > 0 → cpu_utilization a t = ((a : Rat) / (t : Rat)) * 100)
      ∧ (t = 0 → cpu_utilization a t = 0)
      ∧ (tm > 0 → memory_utilization tm fm = (((tm - fm : Int) : Rat) / (tm : Rat)) * 100)
      ∧ (tm = 0 → memory_utilization tm fm = 0) := by
  intro a t tm fm
  refine ⟨fun ht => ?_, fun ht => ?_, fun htm => ?_, fun htm => ?_⟩
  · rw [cpu_utilization, if_neg (by omega)]
  · rw [cpu_utilization, if_pos ht]
  · rw [memory_utilization, if_neg (by omega)]
  · rw [memory_utilization, if_pos htm]

/-- Witness for C9 at a concrete node shape: 2 total CPUs with 1
allocated, 4 MB total memory with 1 MB free. -/
theorem C9_utilization_total_witness :
    (0 : Int) < 2 ∧ cpu_utilization 1 2 = ((1 : Rat) / (2 : Rat)) * 100 :=
  ⟨by decide, (C9_utilization_total 1 2 4 1).1 (by decide)⟩

/-- JobInfo.remaining_time_minutes of models.py lines 305-320. The two
timestamps are embedded as integer epoch seconds; elapsed minutes are the
quotient of elapsed seconds by 60 truncated toward zero, which is what
the Python expression int(total_seconds divided by 60) computes. The
source guard is a truthiness test, so a time limit that is None or zero
yields None, as does a missing start time. -/
def remaining_time_minutes (time_limit start_time : Option Int) (now : Int) : Option Int :=
  match time_limit, start_time with
  | some tl, some st =>
    if tl = 0 then none
    else some (max 0 (tl - Int.tdiv (now - st) 60))
  | _, _ => none

/-- Formatting of a remaining-minutes value, the some-branch of
JobInfo.remaining_time_display of models.py lines 322-350. Python floor
division and modulus are Int.fdiv and Int.fmod. -/
def format_remaining (remaining : Int) : String :=
  if remaining = 0 then "0m"
  else if remaining < 60 then toString remaining ++ "m"
  else if remaining < 1440 then
    if Int.fmod remaining 60 = 0 then
      toString (Int.fdiv remaining 60) ++ "h"
    else
      toString (Int.fdiv remaining 60) ++ "h " ++ toString (Int.fmod remaining 60) ++ "m"
  else
    if Int.fdiv (Int.fmod remaining 1440) 60 = 0 then
      toString (Int.fdiv remaining 1440) ++ "d"
    else
      toString (Int.fdiv remaining 1440) ++ "d " ++ toString (Int.fdiv (Int.fmod remaining 1440) 60) ++ "h"

/-- JobInfo.remaining_time_display of models.py lines 322-350: a dash when
the remaining-minutes value is not calculable, else the formatted value. -/
def remaining_time_display (time_limit start_time : Option Int) (now : Int) : String :=
  match remaining_time_minutes time_limit start_time now with
  | none => "-"
  | some remaining => format_remaining remaining

/-- The remaining-minutes value is never negative when present. -/
theorem rtm_nonneg {tl st : Option Int} {now r : Int}
    (h : remaining_time_minutes tl st now = some r) : 0 ≤ r := by
  rcases tl with _ | tlv
  · simp [remaining_time_minutes] at h
  · rcases st with _ | stv
    · simp [remaining_time_minutes] at h
    · simp only [remaining_time_minutes] at h
      split at h
      · exact absurd h (by simp)
      · have h2 : max 0 (tlv - Int.tdiv (now - stv) 60) = r := by
          simpa using h
        rw [← h2]
        exact le_max_left 0 _

/-- Helper: a string with a nonempty, non-dash literal appended on the
right can never equal the single dash. -/
theorem append_ne_dash (s t : String) (ht1 : t ≠ "") (ht2 : t ≠ "-") : s ++ t ≠ "-" := by
  intro h
  have hd : s.data ++ t.data = ['-'] := by
    have h2 := congrArg String.data h
    rwa [String.data_append] at h2
  cases hs : s.data with
  | nil =>
    rw [hs, List.nil_append] at hd
    exact ht2 (String.ext_iff.mpr hd)
  | cons c cs =>
    rw [hs, List.cons_append] at hd
    injection hd with hc htl
    have ht : t.data = [] := (List.append_eq_nil.mp htl).2
    exact ht1 (String.ext_iff.mpr ht)

/-- The formatted remaining time is never the dash placeholder. -/
theorem format_remaining_ne_dash (r : Int) : format_remaining r ≠ "-" := by
  unfold format_remaining
  split_ifs
  · decide
  · exact append_ne_dash _ _ (by decide) (by decide)
  · exact append_ne_dash _ _ (by decide) (by decide)
  · exact append_ne_dash _ _ (by decide) (by decide)
  · exact append_ne_dash _ _ (by decide) (by decide)
  · exact append_ne_dash _ _ (by decide) (by decide)

/-- The display for a present remaining-minutes value is its format. -/
theorem display_eq_format {tl st : Option Int} {now r : Int}
    (hrem : remaining_time_minutes tl st now = some r) :
    remaining_time_display tl st now = format_remaining r := by
  unfold remaining_time_display
  rw [hrem]

/-- C6: the remaining-time display formats the remaining-minutes value as
0m when it is zero, m-minutes when below 60, hours (with the minute rest
when nonzero) when below 1440, and for 1440 or more a day form whose hour
component is the rest after removing full days, omitted when zero; the
display is the dash exactly when remaining minutes is not applicable. -/
theorem C6_remaining_display :
    ∀ (tl st : Option Int) (now : Int),
      (remaining_time_display tl st now = "-" ↔
        remaining_time_minutes tl st now = none)
      ∧ (∀ r : Int, remaining_time_minutes tl st now = some r →
          remaining_time_display tl st now =
            (if r = 0 then "0m"
             else if r < 60 then toString r ++ "m"
             else if r < 1440 then
               if Int.fmod r 60 = 0 then
                 toString (Int.fdiv r 60) ++ "h"
               else
                 toString (Int.fdiv r 60) ++ "h " ++ toString (Int.fmod r 60) ++ "m"
             else
               if Int.fdiv (Int.fmod r 1440) 60 = 0 then
                 toString (Int.fdiv r 1440) ++ "d"
               else
                 toString (Int.fdiv r 1440) ++ "d " ++ toString (Int.fdiv (Int.fmod r 1440) 60) ++ "h")) := by
  intro tl st now
  constructor
  · constructor
    · intro hdash
      cases hrem : remaining_time_minutes tl st now with
      | none => rfl
      | some r =>
        exfalso
        rw [display_eq_format hrem] at hdash
        exact format_remaining_ne_dash r hdash
    · intro hnone
      unfold remaining_time_display
      rw [hnone]
  · intro r hrem
    rw [display_eq_format hrem]
    rfl

/-- Witness for C6 at the spec example: a 120 minute limit started 90
minutes (5400 seconds) ago leaves 30 minutes, displayed via the
minute branch. -/
theorem C6_remaining_display_witness :
    remaining_time_minutes (some 120) (some 0) 5400 = some 30 ∧
    remaining_time_display (some 120) (some 0) 5400 =
      (if (30 : Int) = 0 then "0m"
       else if (30 : Int) < 60 then toString (30 : Int) ++ "m"
       else if (30 : Int) < 1440 then
         if Int.fmod (30 : Int) 60 = 0 then
           toString (Int.fdiv (30 : Int) 60) ++ "h"
         else
           toString (Int.fdiv (30 : Int) 60) ++ "h " ++ toString (Int.fmod (30 : Int) 60) ++ "m"
       else
         if Int.fdiv (Int.fmod (30 : Int) 1440) 60 = 0 then
           toString (Int.fdiv (30 : Int) 1440) ++ "d"
         else
           toString (Int.fdiv (30 : Int) 1440) ++ "d " ++ toString (Int.fdiv (Int.fmod (30 : Int) 1440) 60) ++ "h") :=
  ⟨by decide, (C6_remaining_display (some 120) (some 0) 5400).2 30 (by decide)⟩

/-- C5 counterexample: a job whose time limit is present but equal to zero
minutes, with a present start time, yields no value, while the claim
demands the value max(0, 0 - elapsed) = 0. Concretely, with time limit 0,
start time 0 and now 0, the code yields None but the claimed formula
yields 0. -/
theorem C5_counterexample :
    remaining_time_minutes (some 0) (some 0) 0 = none ∧
    (none : Option Int) ≠ some (max 0 ((0 : Int) - Int.tdiv ((0 : Int) - 0) 60)) :=
  ⟨by decide, by decide⟩

/-- C5 amended: for every job with a nonzero time limit and a present
start time, the remaining-minutes value is max(0, limit minus elapsed
minutes), where elapsed minutes is elapsed seconds over 60 truncated
toward zero; truncation agrees with floor whenever the start time is not
in the future. The result is None when the time limit is missing or zero
or the start time is missing, and a present result is never negative. -/
theorem C5_remaining_minutes_amended :
    ∀ tl st now : Int,
      (tl ≠ 0 →
        remaining_time_minutes (some tl) (some st) now
          = some (max 0 (tl - Int.tdiv (now - st) 60)))
      ∧ (tl ≠ 0 → st ≤ now →
        remaining_time_minutes (some tl) (some st) now
          = some (max 0 (tl - (now - st) / 60)))
      ∧ remaining_time_minutes none (some st) now = none
      ∧ remaining_time_minutes (some tl) none now = none
      ∧ remaining_time_minutes (some 0) (some st) now = none
      ∧ (∀ a b : Option Int, ∀ r : Int,
          remaining_time_minutes a b now = some r → 0 ≤ r) := by
  intro tl st now
  refine ⟨fun h0 => ?_, fun h0 hle => ?_, rfl, rfl, ?_,
    fun a b r h => rtm_nonneg h⟩
  · simp [remaining_time_minutes, h0]
  · have h1 : Int.tdiv (now - st) 60 = (now - st) / 60 :=
      Int.tdiv_eq_ediv (by omega) (by omega)
    simp [remaining_time_minutes, h0, h1]
  · simp [remaining_time_minutes]

/-- Witness for C5 at the spec example: a 120 minute limit started 200
minutes (12000 seconds) ago leaves max(0, 120 - 200) = 0. -/
theorem C5_remaining_minutes_amended_witness :
    (120 : Int) ≠ 0 ∧
    remaining_time_minutes (some 120) (some 0) 12000
      = some (max 0 ((120 : Int) - Int.tdiv ((12000 : Int) - 0) 60)) :=
  ⟨by decide, (C5_remaining_minutes_amended 120 0 12000).1 (by decide)⟩

/-- The literal marker searched for by NodeInfo.gpu_info of models.py. -/
def gpuMarker : List Char := ['g', 'p', 'u', ':']

/-- Embedding of the Python substring test (the in operator on str) used
as the guard of NodeInfo.gpu_info. -/
def hasGpuMarker (l : List Char) : Bool := decide (gpuMarker <:+: l)

/-- Embedding of str.split on the four character separator gpu: with the
Python semantics: leftmost, non-overlapping matches; a string without the
separator splits into the single whole string. -/
def splitGpu : List Char → List (List Char)
  | [] => [[]]
  | 'g' :: 'p' :: 'u' :: ':' :: rest => [] :: splitGpu rest
  | c :: rest =>
    match splitGpu rest with
    | [] => [[c]]
    | h :: t => (c :: h) :: t

/-- Embedding of str.split on a single character separator. -/
def splitChar (sep : Char) : List Char → List (List Char)
  | [] => [[]]
  | c :: rest =>
    if c = sep then [] :: splitChar sep rest
    else
      match splitChar sep rest with
      | [] => [[c]]
      | h :: t => (c :: h) :: t

/-- Embedding of the combination used at models.py line 133: the test
colon-in-part followed by str.split(colon, 1). None encodes absence of a
colon; otherwise the pair is (before first colon, after first colon). -/
def splitFirstColon : List Char → Option (List Char × List Char)
  | [] => none
  | c :: rest =>
    if c = ':' then some ([], rest)
    else (splitFirstColon rest).map (fun p => (c :: p.1, p.2))

/-- The count substring extraction of models.py lines 136 and 150: the
prefix before the first opening parenthesis, then the prefix of that
before the first comma. -/
def countStrOf (count_info : List Char) : List Char :=
  (count_info.takeWhile (fun c => c != '(')).takeWhile (fun c => c != ',')

/-- Decimal digits to a natural number, most significant first. -/
def digitsToNat (l : List Char) : Nat :=
  l.foldl (fun acc c => acc * 10 + (c.toNat - 48)) 0

/-- Embedding of Python int(str): optional surrounding spaces, an optional
sign, then at least one decimal digit; anything else raises ValueError,
encoded as None. -/
def pyInt (l : List Char) : Option Int :=
  let t := ((l.dropWhile (fun c => c = ' ')).reverse.dropWhile (fun c => c = ' ')).reverse
  match t with
  | [] => none
  | '-' :: ds =>
    if ds ≠ [] ∧ ds.all (fun c => c.isDigit) then some (-(digitsToNat ds : Int)) else none
  | '+' :: ds =>
    if ds ≠ [] ∧ ds.all (fun c => c.isDigit) then some ((digitsToNat ds : Int)) else none
  | ds =>
    if ds.all (fun c => c.isDigit) then some ((digitsToNat ds : Int)) else none

/-- The gpu_info result dictionary of models.py line 126, with keys total,
used and type; the type key is named gtype here because type is a Lean
keyword. -/
structure GpuInfo where
  total : Int
  used : Int
  gtype : List Char
deriving DecidableEq

/-- One iteration of the total-GPU parsing loop of models.py lines
131-140: a part without a colon is skipped; otherwise the type is set and
the count is set only when it parses as an integer. -/
def parseGresTotalStep (info : GpuInfo) (part : List Char) : GpuInfo :=
  match splitFirstColon part with
  | none => info
  | some (gpu_type, count_info) =>
    let info2 : GpuInfo := { info with gtype := gpu_type }
    match pyInt (countStrOf count_info) with
    | some n => { info2 with total := n }
    | none => info2

/-- One iteration of the used-GPU parsing loop of models.py lines
144-154: the part is split on every colon and the second piece, when
present, is parsed as the used count. -/
def parseGresUsedStep (info : GpuInfo) (part : List Char) : GpuInfo :=
  match splitChar ':' part with
  | _ :: second :: _ =>
    match pyInt (countStrOf second) with
    | some n => { info with used := n }
    | none => info
  | _ => info

/-- NodeInfo.gpu_info of models.py lines 123-156: start from zero
accelerators, then fold the total parts and the used parts, each guarded
by the presence of the gpu: marker. -/
def gpu_info (gres_total gres_used : List Char) : GpuInfo :=
  let info0 : GpuInfo := ⟨0, 0, []⟩
  let info1 :=
    if hasGpuMarker gres_total then
      ((splitGpu gres_total).drop 1).foldl parseGresTotalStep info0
    else info0
  if hasGpuMarker gres_used then
    ((splitGpu gres_used).drop 1).foldl parseGresUsedStep info1
  else info1

/-- The gpu_info property attached to a node. -/
def NodeInfo.gpuInfo (n : NodeInfo) : GpuInfo :=
  gpu_info n.gres_total.toList n.gres_used.toList

/-- C7: GRES parsing maps gpu:l40s:4(IDX:0-3) to type l40s with total 4;
the empty string and any string without the gpu: marker map to zero
accelerators without error; the count is the substring before the first
opening parenthesis or comma after the type segment; and on integer parse
failure the count keeps its previous value 0 while the record still
parses. -/
theorem C7_gres_parsing :
    gpu_info "gpu:l40s:4(IDX:0-3)".toList "".toList = ⟨4, 0, "l40s".toList⟩
    ∧ gpu_info "".toList "".toList = ⟨0, 0, []⟩
    ∧ (∀ gt gu : List Char, hasGpuMarker gt = false → hasGpuMarker gu = false →
        gpu_info gt gu = ⟨0, 0, []⟩)
    ∧ (∀ ci : List Char, countStrOf ci = ci.takeWhile (fun c => c != '(' && c != ','))
    ∧ gpu_info "gpu:a:x4(0)".toList "".toList = ⟨0, 0, "a".toList⟩
    ∧ gpu_info "gpu:h100:8,extra".toList "".toList = ⟨8, 0, "h100".toList⟩
    ∧ gpu_info "gpu:l40s:4(IDX:0-3)".toList "gpu:l40s:2(IDX:0-1)".toList
        = ⟨4, 2, "l40s".toList⟩ := by
  refine ⟨by decide, by decide, ?_, ?_, by decide, by decide, by decide⟩
  · intro gt gu h1 h2
    simp [gpu_info, h1, h2]
  · intro ci
    induction ci with
    | nil => rfl
    | cons c rest ih =>
      by_cases h1 : c = '('
      · subst h1
        simp [countStrOf, List.takeWhile_cons]
      · by_cases h2 : c = ','
        · subst h2
          simp [countStrOf, List.takeWhile_cons]
        · simp only [countStrOf, List.takeWhile_cons] at ih ⊢
          simp [h1, h2, ih]

/-- Witness for C7: a GRES string without the gpu: marker parses to zero
accelerators. -/
theorem C7_gres_parsing_witness :
    hasGpuMarker "abc".toList = false ∧ gpu_info "abc".toList [] = ⟨0, 0, []⟩ :=
  ⟨by decide, C7_gres_parsing.2.2.1 "abc".toList [] (by decide) (by decide)⟩

/-- The fixed display priority order of display.py line 293. -/
def state_priority : List String :=
  ["DOWN", "DRAIN", "DRNG", "MIXED", "ALLOCATED", "IDLE"]

/-- The display-state resolution of display.py lines 289-299: unknown for
an empty tag list; otherwise the first priority tag present in the state
list; otherwise the first raw tag. -/
def display_state (state : List String) : String :=
  match state with
  | [] => "unknown"
  | s0 :: _ =>
    match state_priority.find? (fun p => state.contains p) with
    | some p => p
    | none => s0

/-- Helper: find? over a list split as front, hit, tail returns the hit
when the predicate fails on all of the front and holds at the hit. -/
theorem find?_first_in_append {α : Type} (pred : α → Bool) :
    ∀ (l₁ : List α) (p : α) (l₂ : List α),
      (∀ q ∈ l₁, pred q = false) → pred p = true →
      (l₁ ++ p :: l₂).find? pred = some p := by
  intro l₁
  induction l₁ with
  | nil =>
    intro p l₂ _ hp
    rw [List.nil_append]
    exact List.find?_cons_of_pos _ hp
  | cons q l ih =>
    intro p l₂ hfront hp
    have hq : pred q = false := hfront q (List.mem_cons_self q l)
    rw [List.cons_append, List.find?_cons, hq]
    exact ih p l₂ (fun x hx => hfront x (List.mem_cons_of_mem q hx)) hp

/-- C8: for a node with a nonempty state list the displayed state is the
first tag of the order DOWN, DRAIN, DRNG, MIXED, ALLOCATED, IDLE that
occurs in the list; when none occurs the first raw tag is displayed; an
empty state list displays unknown. -/
theorem C8_display_state :
    ∀ st : List String,
      (st = [] → display_state st = "unknown")
      ∧ (∀ s0 t, st = s0 :: t → (∀ p ∈ state_priority, p ∉ st) →
          display_state st = s0)
      ∧ (∀ l₁ (p : String) l₂, state_priority = l₁ ++ p :: l₂ → p ∈ st →
          (∀ q ∈ l₁, q ∉ st) → display_state st = p) := by
  intro st
  refine ⟨fun h => by rw [h]; rfl, ?_, ?_⟩
  · intro s0 t hst hnone
    subst hst
    have hfind : state_priority.find? (fun p => (s0 :: t).contains p) = none :=
      List.find?_eq_none.mpr (fun x hx => by simpa using hnone x hx)
    show (match state_priority.find? (fun p => (s0 :: t).contains p) with
          | some p => p
          | none => s0) = s0
    rw [hfind]
  · intro l₁ p l₂ hsp hp hq
    cases st with
    | nil => cases hp
    | cons s0 t =>
      have hfind : state_priority.find? (fun x => (s0 :: t).contains x) = some p := by
        rw [hsp]
        refine find?_first_in_append _ l₁ p l₂ (fun x hx => ?_) (by simpa using hp)
        simpa using hq x hx
      show (match state_priority.find? (fun x => (s0 :: t).contains x) with
            | some x => x
            | none => s0) = p
      rw [hfind]

/-- Witness for C8 at the spec example: the state list [IDLE, DRAIN]
displays DRAIN because DRAIN precedes IDLE in the priority order. -/
theorem C8_display_state_witness :
    display_state ["IDLE", "DRAIN"] = "DRAIN" :=
  (C8_display_state ["IDLE", "DRAIN"]).2.2 ["DOWN"] "DRAIN"
    ["DRNG", "MIXED", "ALLOCATED", "IDLE"] rfl (by decide) (by decide)

/-- The issues predicate of cli.py lines 111-115 applied to one node. The
Python expression is n.is_down or n.is_draining or (hasattr check); when
is_down is True the rest is short-circuited, otherwise the attribute
access n.is_draining raises AttributeError because the NodeInfo model of
models.py defines no such attribute. The exception is embedded as the
error branch of Except. -/
def issuesPred (n : NodeInfo) : Except String Bool :=
  if is_down n.state then Except.ok true
  else Except.error "AttributeError: NodeInfo has no attribute is_draining"

/-- The issues list comprehension of cli.py lines 113-115: nodes are
tested left to right and the first raised exception aborts the whole
filter. -/
def issuesFilter : List NodeInfo → Except String (List NodeInfo)
  | [] => Except.ok []
  | n :: rest =>
    match issuesPred n with
    | Except.error e => Except.error e
    | Except.ok b =>
      match issuesFilter rest with
      | Except.error e => Except.error e
      | Except.ok l => Except.ok (if b then n :: l else l)

/-- C10: whenever the node collection contains a node that is not
classified down, the issues filter raises (an error escapes), and the
filtering path completes normally exactly when every node in the
collection is classified down. -/
theorem C10_issues_filter :
    ∀ ns : List NodeInfo,
      ((∃ n ∈ ns, is_down n.state = false) →
        issuesFilter ns
          = Except.error "AttributeError: NodeInfo has no attribute is_draining")
      ∧ ((∃ l, issuesFilter ns = Except.ok l) ↔
          ∀ n ∈ ns, is_down n.state = true) := by
  intro ns
  induction ns with
  | nil =>
    refine ⟨fun h => ?_, ?_⟩
    · obtain ⟨n, hn, -⟩ := h
      cases hn
    · simp [issuesFilter]
  | cons n rest ih =>
    constructor
    · rintro ⟨m, hm, hdown⟩
      rcases List.mem_cons.mp hm with rfl | hm2
      · simp [issuesFilter, issuesPred, hdown]
      · by_cases hn : is_down n.state
        · have hrest := ih.1 ⟨m, hm2, hdown⟩
          simp [issuesFilter, issuesPred, hn, hrest]
        · simp [issuesFilter, issuesPred, hn]
    · constructor
      · rintro ⟨l, hl⟩
        intro m hm
        by_cases hn : is_down n.state
        · rcases List.mem_cons.mp hm with rfl | hm2
          · exact hn
          · apply ih.2.mp ?_ m hm2
            simp only [issuesFilter, issuesPred, hn, if_true] at hl
            cases hrest : issuesFilter rest with
            | error e => rw [hrest] at hl; cases hl
            | ok l2 => exact ⟨l2, rfl⟩
        · simp [issuesFilter, issuesPred, hn] at hl
      · intro hall
        have hn : is_down n.state = true := hall n (List.mem_cons_self n rest)
        obtain ⟨l, hl⟩ := ih.2.mpr (fun m hm => hall m (List.mem_cons_of_mem n hm))
        refine ⟨n :: l, ?_⟩
        simp [issuesFilter, issuesPred, hn, hl]

/-- Witness for C10: a one-node collection whose node has an empty state
list, hence is not down, makes the issues filter raise. -/
theorem C10_issues_filter_witness :
    issuesFilter [mkNode "demu4xcpu001" [] none]
      = Except.error "AttributeError: NodeInfo has no attribute is_draining" :=
  (C10_issues_filter [mkNode "demu4xcpu001" [] none]).1
    ⟨mkNode "demu4xcpu001" [] none, List.mem_singleton.mpr rfl, rfl⟩

/-- Embedding of the Python substring test, the in operator on str. -/
def strIn (needle hay : String) : Bool := decide (needle.toList <:+: hay.toList)

/-- The partition merge of display.py lines 271-275: both partition names
must be truthy (present and nonempty); the incoming name is appended with
a plus separator only when the Python substring test fails on the stored
partition string. -/
def mergePartitionName (existing node : NodeInfo) : NodeInfo :=
  match existing.partition_name, node.partition_name with
  | some ep, some np =>
    if ep ≠ "" ∧ np ≠ "" then
      if strIn np ep then existing
      else { existing with partition_name := some (ep ++ "+" ++ np) }
    else existing
  | _, _ => existing

/-- One step of the node-table deduplication of display.py lines 265-275:
a node whose name is already present merges into the stored entry,
otherwise it is appended, preserving first-occurrence order. -/
def dedupStep (acc : List NodeInfo) (node : NodeInfo) : List NodeInfo :=
  if acc.any (fun m => m.name == node.name) then
    acc.map (fun m => if m.name = node.name then mergePartitionName m node else m)
  else acc ++ [node]

/-- The full node-table deduplication of display.py lines 265-275,
iterating the nodes of the cluster in order. -/
def dedupNodes (nodes : List NodeInfo) : List NodeInfo :=
  nodes.foldl dedupStep []

/-- Merging never changes the node name. -/
theorem mergePartitionName_name (m node : NodeInfo) :
    (mergePartitionName m node).name = m.name := by
  unfold mergePartitionName
  split
  · split_ifs <;> rfl
  · rfl

/-- The name list after one dedup step: unchanged on a merge, appended on
a fresh name. -/
theorem dedupStep_names (acc : List NodeInfo) (node : NodeInfo) :
    (dedupStep acc node).map (fun m => m.name)
      = if acc.any (fun m => m.name == node.name) then
          acc.map (fun m => m.name)
        else
          acc.map (fun m => m.name) ++ [node.name] := by
  unfold dedupStep
  split_ifs with h
  · rw [List.map_map]
    apply List.map_congr_left
    intro m _
    simp only [Function.comp]
    split_ifs with h2
    · exact mergePartitionName_name m node
    · rfl
  · simp

/-- One dedup step keeps the name list duplicate-free. -/
theorem dedupStep_names_nodup {acc : List NodeInfo} {node : NodeInfo}
    (h : (acc.map (fun m => m.name)).Nodup) :
    ((dedupStep acc node).map (fun m => m.name)).Nodup := by
  rw [dedupStep_names]
  split_ifs with hany
  · exact h
  · rw [List.nodup_append]
    refine ⟨h, List.nodup_singleton _, ?_⟩
    intro x hx hx2
    rw [List.mem_singleton] at hx2
    subst hx2
    obtain ⟨m, hm, he⟩ := List.mem_map.mp hx
    have := List.any_eq_false.mp (Bool.not_eq_true _ ▸ hany) m hm
    simp only [beq_iff_eq] at this
    exact this he

/-- Membership in the name list after one dedup step. -/
theorem dedupStep_names_mem (acc : List NodeInfo) (node : NodeInfo) (x : String) :
    x ∈ (dedupStep acc node).map (fun m => m.name) ↔
      x ∈ acc.map (fun m => m.name) ∨ x = node.name := by
  rw [dedupStep_names]
  split_ifs with hany
  · constructor
    · exact Or.inl
    · rintro (h | rfl)
      · exact h
      · obtain ⟨m, hm, he⟩ := List.any_eq_true.mp hany
        exact List.mem_map.mpr ⟨m, hm, by simpa using he⟩
  · simp [List.mem_append]

/-- Folded form of the dedup invariants, generalized over the
accumulator. -/
theorem dedupNodes_aux (nodes : List NodeInfo) :
    ∀ acc : List NodeInfo,
      ((acc.map (fun m => m.name)).Nodup →
        ((List.foldl dedupStep acc nodes).map (fun m => m.name)).Nodup)
      ∧ (∀ x, x ∈ (List.foldl dedupStep acc nodes).map (fun m => m.name) ↔
          x ∈ acc.map (fun m => m.name) ∨ x ∈ nodes.map (fun m => m.name)) := by
  induction nodes with
  | nil =>
    intro acc
    refine ⟨fun h => h, fun x => ?_⟩
    simp
  | cons n rest ih =>
    intro acc
    constructor
    · intro h
      rw [List.foldl_cons]
      exact (ih (dedupStep acc n)).1 (dedupStep_names_nodup h)
    · intro x
      rw [List.foldl_cons]
      rw [(ih (dedupStep acc n)).2 x, dedupStep_names_mem]
      simp only [List.map_cons, List.mem_cons]
      tauto

/-- Concrete node appearing under partition batch. -/
def nodeA : NodeInfo := mkNode "a" [] (some "batch")

/-- The same node name appearing under partition at, a distinct partition
name that happens to be a substring of batch. -/
def nodeB : NodeInfo := mkNode "a" [] (some "at")

/-- C4 counterexample: two records of one node under the distinct
partition names batch and at deduplicate to a single entry whose
partition name is just batch, not the plus-joined union batch+at that the
claim requires, because the source tests substring containment rather
than membership among the joined names. -/
theorem C4_counterexample :
    (dedupNodes [nodeA, nodeB]).map (fun m => m.partition_name) = [some "batch"]
    ∧ nodeA.partition_name ≠ nodeB.partition_name
    ∧ (dedupNodes [nodeA, nodeB]).map (fun m => m.partition_name)
        ≠ [some ("batch" ++ "+" ++ "at")] :=
  ⟨by decide, by decide, by decide⟩

/-- C4 amended: deduplication collapses all records sharing one node name
to a single entry in first-occurrence order; for two records of one name
with present nonempty partition names, the incoming partition name is
appended with a plus separator only when it is not a substring of the
stored partition string, and the stored entry is kept unchanged when it
is a substring. -/
theorem C4_dedup_amended :
    ∀ nodes : List NodeInfo,
      ((dedupNodes nodes).map (fun m => m.name)).Nodup
      ∧ (∀ x, x ∈ (dedupNodes nodes).map (fun m => m.name) ↔
          x ∈ nodes.map (fun m => m.name))
      ∧ (∀ n1 n2 : NodeInfo, n1.name = n2.name →
          ∀ s1 s2 : String,
            n1.partition_name = some s1 → n2.partition_name = some s2 →
            s1 ≠ "" → s2 ≠ "" →
            dedupNodes [n1, n2]
              = [if strIn s2 s1 then n1
                 else { n1 with partition_name := some (s1 ++ "+" ++ s2) }]) := by
  intro nodes
  refine ⟨(dedupNodes_aux nodes []).1 (by simp), fun x => ?_, ?_⟩
  · rw [dedupNodes, (dedupNodes_aux nodes []).2 x]
    simp
  · intro n1 n2 hname s1 s2 hp1 hp2 hs1 hs2
    have step1 : dedupStep [] n1 = [n1] := by
      simp [dedupStep]
    have hmerge : mergePartitionName n1 n2
        = (if strIn s2 s1 then n1
           else { n1 with partition_name := some (s1 ++ "+" ++ s2) }) := by
      unfold mergePartitionName
      rw [hp1, hp2]
      show (if s1 ≠ "" ∧ s2 ≠ "" then
              (if strIn s2 s1 then n1
               else { n1 with partition_name := some (s1 ++ "+" ++ s2) })
            else n1) = _
      rw [if_pos (And.intro hs1 hs2)]
    show List.foldl dedupStep [] [n1, n2] = _
    rw [List.foldl_cons, List.foldl_cons, List.foldl_nil, step1]
    unfold dedupStep
    have hany : ([n1].any (fun m => m.name == n2.name)) = true := by
      simp [hname]
    rw [hany]
    simp only [if_true, List.map_cons, List.map_nil, if_pos hname]
    rw [hmerge]

/-- Witness for C4 amended at concrete nodes named b under the partitions
gpu then batch: batch is not a substring of gpu, so the merged entry
carries gpu+batch. -/
theorem C4_dedup_amended_witness :
    dedupNodes [mkNode "b" [] (some "gpu"), mkNode "b" [] (some "batch")]
      = [if strIn "batch" "gpu" then mkNode "b" [] (some "gpu")
         else { mkNode "b" [] (some "gpu") with partition_name := some ("gpu" ++ "+" ++ "batch") }] :=
  (C4_dedup_amended []).2.2 (mkNode "b" [] (some "gpu")) (mkNode "b" [] (some "batch"))
    rfl "gpu" "batch" rfl rfl (by decide) (by decide)

/-- One named partition group of ClusterStatus.partition_stats of
models.py lines 419-424: display name, name prefix, collected members. -/
structure PGroup where
  gname : String
  pfx : String
  members : List NodeInfo
deriving DecidableEq

/-- The four fixed groups of models.py lines 419-424 in source order,
initially empty. -/
def initGroups : List PGroup :=
  [⟨"CPU Nodes", "demu4xcpu", []⟩, ⟨"Fat Nodes", "demu4xfat", []⟩,
   ⟨"GPU Nodes", "demu4xgpu", []⟩, ⟨"VDI Nodes", "demu4xvdi", []⟩]

/-- One node of the grouping loop of models.py lines 427-433: the groups
are scanned in order, the first group whose prefix matches the node name
receives the node unless a member of that name is already present, and
the break stops the scan after the first matching group. -/
def addNode : List PGroup → NodeInfo → List PGroup
  | [], _ => []
  | g :: rest, node =>
    if g.pfx.toList.isPrefixOf node.name.toList then
      if g.members.any (fun m => m.name == node.name) then
        g :: rest
      else
        { g with members := g.members ++ [node] } :: rest
    else
      g :: addNode rest node

/-- The grouping phase of ClusterStatus.partition_stats. -/
def groupNodes (nodes : List NodeInfo) : List PGroup :=
  nodes.foldl addNode initGroups

/-- The per-group statistics record of models.py lines 455-467. The set
of distinct GPU type names is a Python set with no defined order and is
presentation-only, so it is not modelled. -/
structure PartitionStat where
  node_count : Nat
  cpu_total : Int
  cpu_allocated : Int
  cpu_utilization : Rat
  memory_total : Int
  memory_used : Int
  memory_utilization : Rat
  gpu_total : Int
  gpu_used : Int
  gpu_utilization : Rat
deriving DecidableEq

/-- The statistics computation of models.py lines 442-467 for the member
list of one group: memory_used is the sum of the Slurm-allocated memory
of the members, and the group memory utilization divides allocated by
total. -/
def mkStats (nodes : List NodeInfo) : PartitionStat :=
  let total_cpus := (nodes.map (fun n => n.cpus_total)).sum
  let allocated_cpus := (nodes.map (fun n => n.cpus_allocated)).sum
  let total_memory := (nodes.map (fun n => n.memory_total)).sum
  let allocated_memory := (nodes.map (fun n => n.memory_allocated)).sum
  let total_gpus := (nodes.map (fun n => n.gpuInfo.total)).sum
  let used_gpus := (nodes.map (fun n => n.gpuInfo.used)).sum
  { node_count := nodes.length
    cpu_total := total_cpus
    cpu_allocated := allocated_cpus
    cpu_utilization :=
      if total_cpus > 0 then ((allocated_cpus : Rat) / (total_cpus : Rat)) * 100 else 0
    memory_total := total_memory
    memory_used := allocated_memory
    memory_utilization :=
      if total_memory > 0 then ((allocated_memory : Rat) / (total_memory : Rat)) * 100 else 0
    gpu_total := total_gpus
    gpu_used := used_gpus
    gpu_utilization :=
      if total_gpus > 0 then ((used_gpus : Rat) / (total_gpus : Rat)) * 100 else 0 }

/-- ClusterStatus.partition_stats of models.py lines 417-469: group the
nodes, then emit statistics for every nonempty group, keyed by the group
display name. -/
def partition_stats (nodes : List NodeInfo) : List (String × PartitionStat) :=
  (groupNodes nodes).filterMap
    (fun g => if g.members.isEmpty then none else some (g.gname, mkStats g.members))

/-- Adding a node changes no group name and no group prefix. -/
theorem addNode_keys (gs : List PGroup) (node : NodeInfo) :
    (addNode gs node).map (fun g => (g.gname, g.pfx))
      = gs.map (fun g => (g.gname, g.pfx)) := by
  induction gs with
  | nil => rfl
  | cons g rest ih =>
    unfold addNode
    split_ifs with h1 h2
    · rfl
    · rfl
    · simp only [List.map_cons, ih]

/-- Every group after adding a node comes from a group of the input list
with the same name and prefix, either with unchanged members or with the
node appended after passing the prefix test and the freshness test. -/
theorem mem_addNode {gs : List PGroup} {node : NodeInfo} {g : PGroup}
    (hg : g ∈ addNode gs node) :
    ∃ g₀ ∈ gs, g.gname = g₀.gname ∧ g.pfx = g₀.pfx ∧
      (g.members = g₀.members ∨
        (g.members = g₀.members ++ [node]
         ∧ g.pfx.toList.isPrefixOf node.name.toList = true
         ∧ ∀ m ∈ g₀.members, m.name ≠ node.name)) := by
  induction gs with
  | nil => simp [addNode] at hg
  | cons g₁ rest ih =>
    unfold addNode at hg
    split_ifs at hg with h1 h2
    · rcases List.mem_cons.mp hg with rfl | hg2
      · exact ⟨g, List.mem_cons_self _ _, rfl, rfl, Or.inl rfl⟩
      · exact ⟨g, List.mem_cons_of_mem _ hg2, rfl, rfl, Or.inl rfl⟩
    · rcases List.mem_cons.mp hg with rfl | hg2
      · refine ⟨g₁, List.mem_cons_self _ _, rfl, rfl, Or.inr ⟨rfl, h1, ?_⟩⟩
        intro m hm heq
        exact h2 (List.any_eq_true.mpr ⟨m, hm, by simpa using heq⟩)
      · exact ⟨g, List.mem_cons_of_mem _ hg2, rfl, rfl, Or.inl rfl⟩
    · rcases List.mem_cons.mp hg with rfl | hg2
      · exact ⟨g, List.mem_cons_self _ _, rfl, rfl, Or.inl rfl⟩
      · obtain ⟨g₀, hg₀, h3, h4, h5⟩ := ih hg2
        exact ⟨g₀, List.mem_cons_of_mem _ hg₀, h3, h4, h5⟩

/-- The grouping invariant: every member name carries the group prefix
and the member names of each group are duplicate-free. -/
def GroupInv (gs : List PGroup) : Prop :=
  ∀ g ∈ gs,
    (∀ m ∈ g.members, g.pfx.toList.isPrefixOf m.name.toList = true)
    ∧ (g.members.map (fun m => m.name)).Nodup

/-- One grouping step preserves the invariant. -/
theorem groupInv_addNode {gs : List PGroup} {node : NodeInfo}
    (h : GroupInv gs) : GroupInv (addNode gs node) := by
  intro g hg
  obtain ⟨g₀, hg₀, hn, hp, hmem⟩ := mem_addNode hg
  obtain ⟨hpref, hnd⟩ := h g₀ hg₀
  rcases hmem with he | ⟨he, hmatch, hfresh⟩
  · constructor
    · intro m hm
      rw [he] at hm
      rw [hp]
      exact hpref m hm
    · rw [he]
      exact hnd
  · constructor
    · intro m hm
      rw [he] at hm
      rcases List.mem_append.mp hm with hm2 | hm2
      · rw [hp]
        exact hpref m hm2
      · rw [List.mem_singleton] at hm2
        subst hm2
        exact hmatch
    · rw [he, List.map_append, List.nodup_append]
      refine ⟨hnd, List.nodup_singleton _, ?_⟩
      intro x hx hx2
      rw [List.map_singleton, List.mem_singleton] at hx2
      subst hx2
      obtain ⟨m, hm, hme⟩ := List.mem_map.mp hx
      exact hfresh m hm hme

/-- The grouping fold preserves the invariant. -/
theorem groupInv_foldl (nodes : List NodeInfo) :
    ∀ gs, GroupInv gs → GroupInv (List.foldl addNode gs nodes) := by
  induction nodes with
  | nil => intro gs h; exact h
  | cons n rest ih =>
    intro gs h
    rw [List.foldl_cons]
    exact ih _ (groupInv_addNode h)

/-- The four initial groups satisfy the invariant. -/
theorem groupInv_init : GroupInv initGroups := by
  intro g hg
  have h4 : g = ⟨"CPU Nodes", "demu4xcpu", []⟩ ∨ g = ⟨"Fat Nodes", "demu4xfat", []⟩
      ∨ g = ⟨"GPU Nodes", "demu4xgpu", []⟩ ∨ g = ⟨"VDI Nodes", "demu4xvdi", []⟩ := by
    simpa [initGroups] using hg
  rcases h4 with rfl | rfl | rfl | rfl <;> exact ⟨by simp, by simp⟩

/-- The grouped nodes satisfy the invariant. -/
theorem groupNodes_inv (nodes : List NodeInfo) : GroupInv (groupNodes nodes) :=
  groupInv_foldl nodes initGroups groupInv_init

/-- The groups keep exactly the four fixed names and prefixes, in source
order, for every input. -/
theorem groupNodes_keys (nodes : List NodeInfo) :
    (groupNodes nodes).map (fun g => (g.gname, g.pfx))
      = [("CPU Nodes", "demu4xcpu"), ("Fat Nodes", "demu4xfat"),
         ("GPU Nodes", "demu4xgpu"), ("VDI Nodes", "demu4xvdi")] := by
  have hf : ∀ (ns : List NodeInfo) (gs : List PGroup),
      (List.foldl addNode gs ns).map (fun g => (g.gname, g.pfx))
        = gs.map (fun g => (g.gname, g.pfx)) := by
    intro ns
    induction ns with
    | nil => intro gs; rfl
    | cons n rest ih =>
      intro gs
      rw [List.foldl_cons, ih, addNode_keys]
  rw [groupNodes, hf]
  rfl

/-- Two prefixes of equal length shared by one list are equal. -/
theorem prefixes_eq_of_shared {p q l : List Char}
    (hp : p.isPrefixOf l = true) (hq : q.isPrefixOf l = true)
    (hl : p.length = q.length) : p = q := by
  have hp2 := List.isPrefixOf_iff_prefix.mp hp
  have hq2 := List.isPrefixOf_iff_prefix.mp hq
  exact List.IsPrefix.eq_of_length
    (List.prefix_of_prefix_length_le hp2 hq2 (le_of_eq hl)) hl

/-- C2: the rollup groups are exactly the four fixed prefix-named groups;
every grouped node name carries the prefix of its group; within a group
each node name appears exactly once, so it contributes to the sums
exactly once even when the input collection repeats the name across
partition memberships; a node name never appears in two groups; and a
node whose name matches none of the four prefixes appears in no group. -/
theorem C2_partition_grouping :
    ∀ nodes : List NodeInfo,
      ((groupNodes nodes).map (fun g => (g.gname, g.pfx))
          = [("CPU Nodes", "demu4xcpu"), ("Fat Nodes", "demu4xfat"),
             ("GPU Nodes", "demu4xgpu"), ("VDI Nodes", "demu4xvdi")])
      ∧ (∀ g ∈ groupNodes nodes, ∀ n ∈ g.members,
          g.pfx.toList.isPrefixOf n.name.toList = true)
      ∧ (∀ g ∈ groupNodes nodes, (g.members.map (fun m => m.name)).Nodup)
      ∧ (∀ g ∈ groupNodes nodes, ∀ g2 ∈ groupNodes nodes,
          ∀ n ∈ g.members, ∀ n2 ∈ g2.members,
            n.name = n2.name → g.gname = g2.gname)
      ∧ (∀ nd : NodeInfo,
          (∀ p ∈ (["demu4xcpu", "demu4xfat", "demu4xgpu", "demu4xvdi"] : List String),
            ¬ (p.toList.isPrefixOf nd.name.toList = true)) →
          ∀ g ∈ groupNodes nodes, ∀ m ∈ g.members, m.name ≠ nd.name) := by
  intro nodes
  have hinv := groupNodes_inv nodes
  have hkeys := groupNodes_keys nodes
  refine ⟨hkeys, fun g hg n hn => (hinv g hg).1 n hn,
    fun g hg => (hinv g hg).2, ?_, ?_⟩
  · intro g hg g2 hg2 n hn n2 hn2 hname
    have hpg : (g.gname, g.pfx) ∈
        [("CPU Nodes", "demu4xcpu"), ("Fat Nodes", "demu4xfat"),
         ("GPU Nodes", "demu4xgpu"), ("VDI Nodes", "demu4xvdi")] := by
      rw [← hkeys]
      exact List.mem_map_of_mem _ hg
    have hpg2 : (g2.gname, g2.pfx) ∈
        [("CPU Nodes", "demu4xcpu"), ("Fat Nodes", "demu4xfat"),
         ("GPU Nodes", "demu4xgpu"), ("VDI Nodes", "demu4xvdi")] := by
      rw [← hkeys]
      exact List.mem_map_of_mem _ hg2
    have hpre : g.pfx.toList.isPrefixOf n2.name.toList = true := by
      rw [← hname]
      exact (hinv g hg).1 n hn
    have hpre2 : g2.pfx.toList.isPrefixOf n2.name.toList = true :=
      (hinv g2 hg2).1 n2 hn2
    simp only [List.mem_cons, List.not_mem_nil, or_false, Prod.mk.injEq] at hpg hpg2
    rcases hpg with ⟨e1, e2⟩ | ⟨e1, e2⟩ | ⟨e1, e2⟩ | ⟨e1, e2⟩ <;>
      rcases hpg2 with ⟨f1, f2⟩ | ⟨f1, f2⟩ | ⟨f1, f2⟩ | ⟨f1, f2⟩ <;>
      rw [e1, f1] <;>
      first
        | rfl
        | (exfalso
           rw [e2] at hpre
           rw [f2] at hpre2
           exact absurd (prefixes_eq_of_shared hpre hpre2 (by decide)) (by decide))
  · intro nd hnp g hg m hm heq
    have hpre := (hinv g hg).1 m hm
    rw [heq] at hpre
    have hpg : (g.gname, g.pfx) ∈
        [("CPU Nodes", "demu4xcpu"), ("Fat Nodes", "demu4xfat"),
         ("GPU Nodes", "demu4xgpu"), ("VDI Nodes", "demu4xvdi")] := by
      rw [← hkeys]
      exact List.mem_map_of_mem _ hg
    simp only [List.mem_cons, List.not_mem_nil, or_false, Prod.mk.injEq] at hpg
    rcases hpg with ⟨-, e2⟩ | ⟨-, e2⟩ | ⟨-, e2⟩ | ⟨-, e2⟩ <;>
      (rw [e2] at hpre; exact hnp _ (by simp) hpre)

/-- Concrete node for the C2 witness, repeated in the input as happens
when one node is fetched once per partition membership. -/
def dupNode : NodeInfo := mkNode "demu4xcpu001" [] (some "p1")

/-- Witness for C2: feeding the same node twice leaves the CPU group with
a single member, whose name list is duplicate-free. -/
theorem C2_partition_grouping_witness :
    (((⟨"CPU Nodes", "demu4xcpu", [dupNode]⟩ : PGroup).members.map
        (fun m => m.name)).Nodup) :=
  (C2_partition_grouping [dupNode, dupNode]).2.2.1
    ⟨"CPU Nodes", "demu4xcpu", [dupNode]⟩ (by decide)

/-- Concrete node for the C3 divergence example: 100 MB total, 50 MB
free, 20 MB allocated by the scheduler. -/
def memDemoNode : NodeInfo :=
  ⟨"demu4xcpu002", [], none, 0, 0, 0, 0, 100, 50, 20, 1, 1, 1, "", "", "", "", 1⟩

/-- C3: the per-group rollup reports used memory as the sum of the
allocated-memory fields of the members and computes group utilization as
allocated over total times 100, while per-node utilization is (total
minus free) over total times 100; on a node where allocated differs from
total minus free the two conventions give different numbers (50 versus 20
on the demo node). -/
theorem C3_memory_conventions :
    (∀ ns : List NodeInfo,
      (mkStats ns).memory_used = (ns.map (fun n => n.memory_allocated)).sum
      ∧ (mkStats ns).memory_utilization
          = (if (ns.map (fun n => n.memory_total)).sum > 0 then
               ((((ns.map (fun n => n.memory_allocated)).sum : Int) : Rat)
                 / (((ns.map (fun n => n.memory_total)).sum : Int) : Rat)) * 100
             else 0))
    ∧ (∀ n : NodeInfo,
        memory_utilization n.memory_total n.memory_free
          = (if n.memory_total = 0 then 0
             else (((n.memory_total - n.memory_free : Int) : Rat)
               / (n.memory_total : Rat)) * 100))
    ∧ memory_utilization memDemoNode.memory_total memDemoNode.memory_free = 50
    ∧ (mkStats [memDemoNode]).memory_utilization = 20 := by
  refine ⟨fun ns => ⟨rfl, rfl⟩, fun n => rfl, ?_, ?_⟩
  · show memory_utilization 100 50 = 50
    rw [memory_utilization, if_neg (by omega)]
    norm_num
  · show (if ((100 : Int) > 0) then ((20 : Rat) / (100 : Rat)) * 100 else 0) = 20
    rw [if_pos (by omega)]
    norm_num
